import Mathlib

/-!
Verification of the stock-ticker aggregation core (rust-pub-sub).

Shallow embedding of the aggregation core of the repository:
* `src/types.rs` — the `StockPrice`, `AggregatedStats` and `AggregatedState` types;
* `src/bin/aggregator.rs` — the NATS ingestion loop (`start_nats_listener`) and the
  query handlers (`get_stats`, `get_raw`, `get_stats_for_symbol`, `get_raw_for_symbol`).

Modelling decisions:
* `f64` prices are embedded as `ℚ` (exact arithmetic of the algorithm; the concrete
  scenario values 100.0, 200.0, 50.0 are exactly representable in `f64`, so the
  concrete computations agree with the Rust code bit-for-bit).
* Rust `HashMap<String, V>` is embedded as `String → Option V`; `entry(k).or_default()`
  / `entry(k).or_insert(z)` and `get(&k).cloned()` translate to point updates and
  lookups of that function.
* JSON payloads are embedded as a JSON value AST; `serde_json::from_str::<StockPrice>`
  is embedded as a field-by-field decoder that mirrors the derived serde deserializer:
  unknown fields are ignored (no `deny_unknown_fields` attribute on the struct),
  a duplicate known field is an error, a missing or wrongly-typed known field is an
  error.  A payload that is not a JSON object (or not valid JSON at all) decodes to
  `none`.
* The two separately-locked critical sections of the ingestion loop body
  (`raw_data.lock()` at aggregator.rs:62-67 and `stats_data.lock()` at
  aggregator.rs:70-84) are embedded as two functions `recordRaw` and `recordStats`;
  one full record is their composition, and the state between them is a state a
  concurrent reader can lock-and-observe.
-/

/-- Rust struct `StockPrice` from `src/types.rs` lines 7-12 (`symbol`, `price: f64`, `timestamp`);
`f64` is embedded as `ℚ`. -/
structure StockPrice where
  symbol : String
  price : ℚ
  timestamp : String
  deriving DecidableEq, Repr

/-- Rust struct `AggregatedStats` from `src/types.rs` lines 14-20
(`total: f64`, `count: usize`, `average: f64`, `latest: f64`). -/
structure AggregatedStats where
  total : ℚ
  count : Nat
  average : ℚ
  latest : ℚ
  deriving DecidableEq, Repr

/-- Rust struct `AggregatedState` from `src/types.rs` lines 22-26: the two shared maps
`raw_data : HashMap<String, Vec<StockPrice>>` and
`stats_data : HashMap<String, AggregatedStats>`, each embedded as a lookup function. -/
structure AggregatedState where
  raw_data : String → Option (List StockPrice)
  stats_data : String → Option AggregatedStats

/-- The value `AggregatedState::default()` (aggregator.rs line 11): both maps empty. -/
def AggregatedState.empty : AggregatedState :=
  { raw_data := fun _ => none, stats_data := fun _ => none }

/-- The zero aggregate inserted by `or_insert` at aggregator.rs lines 73-78:
`{ total: 0.0, count: 0, average: 0.0, latest: 0.0 }`. -/
def zeroStats : AggregatedStats :=
  { total := 0, count := 0, average := 0, latest := 0 }

/-- The in-place mutation of one symbol's stats, aggregator.rs lines 80-83:
`total += price; count += 1; latest = price; average = total / count`. -/
def updateStats (a : AggregatedStats) (p : ℚ) : AggregatedStats :=
  { total := a.total + p
    count := a.count + 1
    latest := p
    average := (a.total + p) / ((a.count + 1 : Nat) : ℚ) }

/-- First critical section of the loop body (aggregator.rs lines 61-67), under the
`raw_data` mutex: `raw_map.entry(symbol).or_default().push(stock)`. -/
def recordRaw (st : AggregatedState) (t : StockPrice) : AggregatedState :=
  { st with raw_data := fun s =>
      if s = t.symbol then some (((st.raw_data t.symbol).getD []) ++ [t])
      else st.raw_data s }

/-- Second critical section of the loop body (aggregator.rs lines 69-84), under the
`stats_data` mutex: `entry(symbol).or_insert(zero)` then the four-field update. -/
def recordStats (st : AggregatedState) (t : StockPrice) : AggregatedState :=
  { st with stats_data := fun s =>
      if s = t.symbol then some (updateStats ((st.stats_data t.symbol).getD zeroStats) t.price)
      else st.stats_data s }

/-- One full record of a decoded tick: the loop body for one successfully decoded
message (aggregator.rs lines 61-84), raw history first, then stats. -/
def record (st : AggregatedState) (t : StockPrice) : AggregatedState :=
  recordStats (recordRaw st t) t

/-- Processing a sequence of already-decoded ticks in arrival order. -/
def processTicks (st : AggregatedState) (ts : List StockPrice) : AggregatedState :=
  ts.foldl record st

/-- Handler for `GET /aggregate/:symbol`, handler `get_stats_for_symbol` (aggregator.rs lines 92-98):
`data.get(&symbol).cloned()`, an `Option<AggregatedStats>`. -/
def get_stats_for_symbol (st : AggregatedState) (symbol : String) : Option AggregatedStats :=
  st.stats_data symbol

/-- Handler for `GET /raw/:symbol`, handler `get_raw_for_symbol` (aggregator.rs lines 101-107):
`data.get(&symbol).cloned()`, an `Option<Vec<StockPrice>>`. -/
def get_raw_for_symbol (st : AggregatedState) (symbol : String) : Option (List StockPrice) :=
  st.raw_data symbol

/-! JSON payloads and the serde decoder. -/

/-- A JSON value; the number case carries a `ℚ` (embedding of `f64`). -/
inductive Json where
  | null : Json
  | bool : Bool → Json
  | num : ℚ → Json
  | str : String → Json
  | arr : List Json → Json
  | obj : List (String × Json) → Json

/-- One step of the field loop of the derived serde deserializer for `StockPrice`:
given the already-seen values of `symbol`, `price`, `timestamp` and the next field,
a duplicate known field or a wrongly-typed known field is an error (`none`), an
unknown field is skipped. -/
def decodeField (acc : Option String × Option ℚ × Option String) (f : String × Json) :
    Option (Option String × Option ℚ × Option String) :=
  if f.1 = "symbol" then
    match acc.1, f.2 with
    | none, .str s => some (some s, acc.2.1, acc.2.2)
    | _, _ => none
  else if f.1 = "price" then
    match acc.2.1, f.2 with
    | none, .num p => some (acc.1, some p, acc.2.2)
    | _, _ => none
  else if f.1 = "timestamp" then
    match acc.2.2, f.2 with
    | none, .str ts => some (acc.1, acc.2.1, some ts)
    | _, _ => none
  else some acc

/-- The field loop of the derived serde deserializer for `StockPrice`: walks the
object's fields in order with `decodeField`; at the end all three fields must be
present. -/
def decodeFields (fs : List (String × Json)) : Option StockPrice :=
  match fs.foldlM decodeField (none, none, none) with
  | some (some s, some p, some ts) => some { symbol := s, price := p, timestamp := ts }
  | _ => none

/-- Decoding `serde_json::from_str::<StockPrice>` (aggregator.rs line 60) on a payload:
succeeds only on a JSON object whose fields decode per `decodeFields`. -/
def decodeStockPrice : Json → Option StockPrice
  | .obj fields => decodeFields fields
  | _ => none

/-- Encoding `serde_json::to_string(&stock_price)` (publisher.rs line 33): the derived
serializer emits the three fields in declaration order. -/
def encodeStockPrice (t : StockPrice) : Json :=
  .obj [("symbol", .str t.symbol), ("price", .num t.price), ("timestamp", .str t.timestamp)]

/-- One iteration of the ingestion loop (aggregator.rs lines 58-85): decode the
payload; on success record the tick, on failure do nothing (the `if let Ok` falls
through and the loop continues). -/
def ingestStep (st : AggregatedState) (payload : Json) : AggregatedState :=
  match decodeStockPrice payload with
  | some t => record st t
  | none => st

/-- The ingestion loop over a finite prefix of the message stream, in delivery
order. -/
def processPayloads (st : AggregatedState) (ps : List Json) : AggregatedState :=
  ps.foldl ingestStep st

/-- Sum of the prices of a list of ticks. -/
def sumPrices (ts : List StockPrice) : ℚ :=
  (ts.map StockPrice.price).sum

/-- Folding a list of ticks into one symbol's aggregate entry the way the loop body
does: an absent entry is first created at `zeroStats` (`or_insert`), every tick then
applies `updateStats`. -/
def applyTicksToStats (a? : Option AggregatedStats) (ts : List StockPrice) :
    Option AggregatedStats :=
  ts.foldl (fun acc t => some (updateStats (acc.getD zeroStats) t.price)) a?

/-- Folding a list of ticks into one symbol's raw-history entry the way the loop body
does: an absent entry is first created empty (`or_default`), every tick is then
pushed at the end. -/
def applyTicksToRaw (l? : Option (List StockPrice)) (ts : List StockPrice) :
    Option (List StockPrice) :=
  ts.foldl (fun acc t => some (acc.getD [] ++ [t])) l?

/-- The per-aggregate invariant of the spec: `average == total / count` whenever
`count > 0`, and `count == 0` implies `total == 0` and `average == 0`. -/
def StatsInv (a : AggregatedStats) : Prop :=
  (a.count ≠ 0 → a.average = a.total / (a.count : ℚ)) ∧
  (a.count = 0 → a.total = 0 ∧ a.average = 0)

/-- The cross-map invariant relating the two mappings of `AggregatedState`: every
symbol is either absent from both maps, or present in both with a non-empty history
whose length equals the aggregate's `count` and all of whose ticks carry that
symbol. -/
def CrossInv (st : AggregatedState) : Prop :=
  ∀ s, (st.raw_data s = none ∧ st.stats_data s = none) ∨
    (∃ l a, st.raw_data s = some l ∧ st.stats_data s = some a ∧
      l ≠ [] ∧ a.count = l.length ∧ ∀ t ∈ l, t.symbol = s)

/-- What a reader of both maps sees as matching for symbol `s`: the stored history
length equals the stored aggregate `count` (0 when absent).  This is exactly the
"history update without the matching aggregate update" observation of the spec. -/
def consistentAt (st : AggregatedState) (s : String) : Prop :=
  ((st.raw_data s).getD []).length = ((st.stats_data s).map AggregatedStats.count).getD 0

/-- The states a concurrent reader can observe while one `record` of `t` from state
`st` is in progress: the `raw_data` mutex and the `stats_data` mutex are taken in two
separate blocks (aggregator.rs lines 61-67 and 69-84), so a reader locking between
the blocks sees `recordRaw st t` — the first critical section done, the second not
yet started. -/
def observableDuring (st : AggregatedState) (t : StockPrice) : List AggregatedState :=
  [st, recordRaw st t, record st t]

/-- First tick of the spec's concrete scenario: `{AAPL, 100.0, t1}`. -/
def aapl1 : StockPrice := { symbol := "AAPL", price := 100, timestamp := "t1" }

/-- Second tick of the spec's concrete scenario: `{AAPL, 200.0, t2}`. -/
def aapl2 : StockPrice := { symbol := "AAPL", price := 200, timestamp := "t2" }

/-- Third tick of the spec's concrete scenario: `{GOOGL, 50.0, t3}`. -/
def googl1 : StockPrice := { symbol := "GOOGL", price := 50, timestamp := "t3" }

/-- The spec's concrete scenario stream, in arrival order. -/
def scenarioTicks : List StockPrice := [aapl1, aapl2, googl1]

/-! Helper lemmas about `record` and the ingestion folds. -/

theorem record_stats_lookup (st : AggregatedState) (t : StockPrice) (s : String) :
    (record st t).stats_data s =
      if s = t.symbol then
        some (updateStats ((st.stats_data t.symbol).getD zeroStats) t.price)
      else st.stats_data s := rfl

theorem record_raw_lookup (st : AggregatedState) (t : StockPrice) (s : String) :
    (record st t).raw_data s =
      if s = t.symbol then some (((st.raw_data t.symbol).getD []) ++ [t])
      else st.raw_data s := rfl

theorem applyTicksToStats_cons (a? : Option AggregatedStats) (t : StockPrice)
    (l : List StockPrice) :
    applyTicksToStats a? (t :: l) =
      applyTicksToStats (some (updateStats (a?.getD zeroStats) t.price)) l := rfl

theorem applyTicksToRaw_cons (l? : Option (List StockPrice)) (t : StockPrice)
    (l : List StockPrice) :
    applyTicksToRaw l? (t :: l) = applyTicksToRaw (some (l?.getD [] ++ [t])) l := rfl

theorem processTicks_stats_lookup (ts : List StockPrice) (st : AggregatedState) (s : String) :
    (processTicks st ts).stats_data s =
      applyTicksToStats (st.stats_data s) (ts.filter (fun t => t.symbol == s)) := by
  induction ts generalizing st with
  | nil => rfl
  | cons t rest ih =>
    have hstep : processTicks st (t :: rest) = processTicks (record st t) rest := rfl
    rw [hstep, ih]
    by_cases hts : t.symbol = s
    · have hf : (t :: rest).filter (fun t => t.symbol == s) =
          t :: rest.filter (fun t => t.symbol == s) := by
        simp [List.filter_cons, hts]
      rw [hf, applyTicksToStats_cons, record_stats_lookup, if_pos hts.symm, hts]
    · have hf : (t :: rest).filter (fun t => t.symbol == s) =
          rest.filter (fun t => t.symbol == s) := by
        simp [List.filter_cons, hts]
      rw [hf, record_stats_lookup, if_neg (fun h => hts h.symm)]

theorem processTicks_raw_lookup (ts : List StockPrice) (st : AggregatedState) (s : String) :
    (processTicks st ts).raw_data s =
      applyTicksToRaw (st.raw_data s) (ts.filter (fun t => t.symbol == s)) := by
  induction ts generalizing st with
  | nil => rfl
  | cons t rest ih =>
    have hstep : processTicks st (t :: rest) = processTicks (record st t) rest := rfl
    rw [hstep, ih]
    by_cases hts : t.symbol = s
    · have hf : (t :: rest).filter (fun t => t.symbol == s) =
          t :: rest.filter (fun t => t.symbol == s) := by
        simp [List.filter_cons, hts]
      rw [hf, applyTicksToRaw_cons, record_raw_lookup, if_pos hts.symm, hts]
    · have hf : (t :: rest).filter (fun t => t.symbol == s) =
          rest.filter (fun t => t.symbol == s) := by
        simp [List.filter_cons, hts]
      rw [hf, record_raw_lookup, if_neg (fun h => hts h.symm)]

theorem applyTicksToStats_none (ss : List StockPrice) (h : ss ≠ []) :
    applyTicksToStats none ss = applyTicksToStats (some zeroStats) ss := by
  cases ss with
  | nil => exact absurd rfl h
  | cons t l => rfl

theorem applyTicksToStats_some (ss : List StockPrice) :
    ∀ (a : AggregatedStats) (h : ss ≠ []),
    applyTicksToStats (some a) ss =
      some { total := a.total + sumPrices ss
             count := a.count + ss.length
             average := (a.total + sumPrices ss) / ((a.count + ss.length : Nat) : ℚ)
             latest := (ss.getLast h).price } := by
  induction ss with
  | nil => intro a h; exact absurd rfl h
  | cons t rest ih =>
    intro a h
    cases rest with
    | nil =>
      simp only [applyTicksToStats_cons, applyTicksToStats, List.foldl_nil, Option.getD_some]
      simp [updateStats, sumPrices, List.getLast]
    | cons r rs =>
      rw [applyTicksToStats_cons]
      simp only [Option.getD_some]
      rw [ih (updateStats a t.price) (List.cons_ne_nil r rs)]
      have hlast : ((t :: r :: rs).getLast h) = ((r :: rs).getLast (List.cons_ne_nil r rs)) :=
        List.getLast_cons (List.cons_ne_nil r rs)
      rw [hlast]
      have hsum : sumPrices (t :: r :: rs) = t.price + sumPrices (r :: rs) := by
        simp [sumPrices]
      have hlen : (t :: r :: rs).length = (r :: rs).length + 1 := by simp
      simp only [updateStats, hsum, hlen]
      have h1 : a.total + t.price + sumPrices (r :: rs) =
          a.total + (t.price + sumPrices (r :: rs)) := by ring
      have h2 : a.count + 1 + (r :: rs).length = a.count + ((r :: rs).length + 1) := by omega
      refine congrArg some ?_
      simp only [AggregatedStats.mk.injEq]
      exact ⟨h1, h2, by rw [h1, h2], trivial⟩

theorem applyTicksToRaw_eq (ss : List StockPrice) :
    ∀ l? : Option (List StockPrice),
    applyTicksToRaw l? ss = if ss.isEmpty then l? else some (l?.getD [] ++ ss) := by
  induction ss with
  | nil => intro l?; rfl
  | cons t rest ih =>
    intro l?
    rw [applyTicksToRaw_cons, ih]
    cases rest with
    | nil => simp
    | cons r rs => simp

theorem processPayloads_eq_processTicks (ps : List Json) :
    ∀ st : AggregatedState,
    processPayloads st ps = processTicks st (ps.filterMap decodeStockPrice) := by
  induction ps with
  | nil => intro st; rfl
  | cons p rest ih =>
    intro st
    have hstep : processPayloads st (p :: rest) = processPayloads (ingestStep st p) rest := rfl
    rw [hstep, List.filterMap_cons]
    cases hd : decodeStockPrice p with
    | none => rw [ih]; simp [ingestStep, hd]
    | some t =>
      rw [ih]
      simp only [ingestStep, hd]
      rfl

theorem applyTicksToStats_inversion (ss : List StockPrice) :
    ∀ (a? : Option AggregatedStats) (a : AggregatedStats),
    applyTicksToStats a? ss = some a →
      (a? = some a ∧ ss = []) ∨ ∃ b p, a = updateStats b p := by
  induction ss with
  | nil => intro a? a h; exact Or.inl ⟨h, rfl⟩
  | cons t rest ih =>
    intro a? a h
    rw [applyTicksToStats_cons] at h
    rcases ih _ _ h with ⟨heq, -⟩ | hex
    · exact Or.inr ⟨(a?.getD zeroStats), t.price, (Option.some.injEq _ _ ▸ heq).symm⟩
    · exact Or.inr hex

/-- C1: for any sequence of ticks fed to the ingestion loop from the empty state,
the aggregate of any symbol `s` that received at least one tick has `count` equal
to the number of ticks for `s`, `total` equal to the sum of their prices, `average`
equal to `total / count`, and `latest` equal to the price of the last tick for `s`. -/
theorem aggregate_incremental_correctness (ts : List StockPrice) (s : String)
    (h : ts.filter (fun t => t.symbol == s) ≠ []) :
    (processTicks AggregatedState.empty ts).stats_data s =
      some { total := sumPrices (ts.filter (fun t => t.symbol == s))
             count := (ts.filter (fun t => t.symbol == s)).length
             average := sumPrices (ts.filter (fun t => t.symbol == s)) /
               (((ts.filter (fun t => t.symbol == s)).length : Nat) : ℚ)
             latest := ((ts.filter (fun t => t.symbol == s)).getLast h).price } := by
  rw [processTicks_stats_lookup]
  have hempty : AggregatedState.empty.stats_data s = none := rfl
  rw [hempty, applyTicksToStats_none _ h, applyTicksToStats_some _ zeroStats h]
  simp [zeroStats]

/-- Witness for C1, the spec's concrete scenario: after recording
`{AAPL,100}`, `{AAPL,200}`, `{GOOGL,50}`, the AAPL aggregate is
`{total:300, count:2, average:150, latest:200}` and the GOOGL aggregate is
`{total:50, count:1, average:50, latest:50}`. -/
theorem aggregate_incremental_correctness_witness :
    (scenarioTicks.filter (fun t => t.symbol == "AAPL") ≠ [] ∧
      (processTicks AggregatedState.empty scenarioTicks).stats_data "AAPL" =
        some { total := 300, count := 2, average := 150, latest := 200 }) ∧
    (scenarioTicks.filter (fun t => t.symbol == "GOOGL") ≠ [] ∧
      (processTicks AggregatedState.empty scenarioTicks).stats_data "GOOGL" =
        some { total := 50, count := 1, average := 50, latest := 50 }) :=
  ⟨⟨by decide, (aggregate_incremental_correctness scenarioTicks "AAPL"
      (by decide)).trans (by
        simp +decide [scenarioTicks, aapl1, aapl2, googl1, sumPrices, List.filter_cons,
          List.getLast]
        all_goals norm_num)⟩,
   ⟨by decide, (aggregate_incremental_correctness scenarioTicks "GOOGL"
      (by decide)).trans (by
        simp +decide [scenarioTicks, aapl1, aapl2, googl1, sumPrices, List.filter_cons,
          List.getLast])⟩⟩

/-- C4: round-trip law — decoding the encoding of any in-memory tick yields the
tick back, with equal symbol, price and timestamp (and encoding, being a total
function into JSON values, never fails). -/
theorem tick_roundtrip (t : StockPrice) :
    decodeStockPrice (encodeStockPrice t) = some t := rfl

/-- C6: for a symbol never observed in the processed stream, both per-symbol
queries return `none` — not a zeroed aggregate, not an empty list. -/
theorem unknown_symbol_not_found (ts : List StockPrice) (s : String)
    (h : ∀ t ∈ ts, t.symbol ≠ s) :
    get_stats_for_symbol (processTicks AggregatedState.empty ts) s = none ∧
    get_raw_for_symbol (processTicks AggregatedState.empty ts) s = none := by
  have hf : ts.filter (fun t => t.symbol == s) = [] := by
    rw [List.filter_eq_nil_iff]
    intro t ht
    simpa using h t ht
  constructor
  · show (processTicks AggregatedState.empty ts).stats_data s = none
    rw [processTicks_stats_lookup, hf]
    rfl
  · show (processTicks AggregatedState.empty ts).raw_data s = none
    rw [processTicks_raw_lookup, hf]
    rfl

/-- Witness for C6: in the spec's concrete scenario, `MSFT` was never observed and
both per-symbol queries return `none`. -/
theorem unknown_symbol_not_found_witness :
    (∀ t ∈ scenarioTicks, t.symbol ≠ "MSFT") ∧
    (get_stats_for_symbol (processTicks AggregatedState.empty scenarioTicks) "MSFT" = none ∧
      get_raw_for_symbol (processTicks AggregatedState.empty scenarioTicks) "MSFT" = none) :=
  ⟨by decide, unknown_symbol_not_found scenarioTicks "MSFT" (by decide)⟩

/-- C7: isolation across symbols — recording a tick for one symbol leaves both the
raw history and the aggregate of every other symbol exactly unchanged. -/
theorem symbol_isolation (st : AggregatedState) (t : StockPrice) (s : String)
    (h : s ≠ t.symbol) :
    (record st t).raw_data s = st.raw_data s ∧
    (record st t).stats_data s = st.stats_data s := by
  rw [record_raw_lookup, record_stats_lookup]
  exact ⟨if_neg h, if_neg h⟩

/-- Witness for C7: recording the AAPL tick from the empty state leaves GOOGL's
entries unchanged. -/
theorem symbol_isolation_witness :
    "GOOGL" ≠ aapl1.symbol ∧
    ((record AggregatedState.empty aapl1).raw_data "GOOGL" =
        AggregatedState.empty.raw_data "GOOGL" ∧
      (record AggregatedState.empty aapl1).stats_data "GOOGL" =
        AggregatedState.empty.stats_data "GOOGL") :=
  ⟨by decide, symbol_isolation AggregatedState.empty aapl1 "GOOGL" (by decide)⟩

theorem getD_zeroStats_count (a? : Option AggregatedStats) :
    (a?.getD zeroStats).count = (a?.map AggregatedStats.count).getD 0 := by
  cases a? <;> rfl

/-- C5: decode failures are contained — the ingestion loop's final state over any
payload sequence equals the state obtained by processing only the
successfully-decoded ticks in order, and a single undecodable payload leaves the
state exactly unchanged. -/
theorem decode_failure_containment :
    (∀ (st : AggregatedState) (ps : List Json),
      processPayloads st ps = processTicks st (ps.filterMap decodeStockPrice)) ∧
    (∀ (st : AggregatedState) (p : Json),
      decodeStockPrice p = none → ingestStep st p = st) := by
  constructor
  · intro st ps
    exact processPayloads_eq_processTicks ps st
  · intro st p h
    simp [ingestStep, h]

/-- Witness for C5: a malformed payload between two valid ticks is dropped, and a
non-JSON-object payload leaves the state exactly unchanged. -/
theorem decode_failure_containment_witness :
    processPayloads AggregatedState.empty
        [encodeStockPrice aapl1, Json.str "garbage", encodeStockPrice aapl2] =
      processTicks AggregatedState.empty
        ([encodeStockPrice aapl1, Json.str "garbage",
          encodeStockPrice aapl2].filterMap decodeStockPrice) ∧
    decodeStockPrice (Json.str "garbage") = none ∧
    ingestStep AggregatedState.empty (Json.str "garbage") = AggregatedState.empty :=
  ⟨decode_failure_containment.1 AggregatedState.empty _, rfl,
   decode_failure_containment.2 AggregatedState.empty (Json.str "garbage") rfl⟩

/-- C8: `record` appends the tick verbatim at the end of its symbol's history, and
after processing any payload sequence from the empty state, each symbol's stored
history is exactly the subsequence of decoded ticks carrying that symbol, in
arrival order (absent when that subsequence is empty). -/
theorem raw_history_exact :
    (∀ (st : AggregatedState) (t : StockPrice),
      (record st t).raw_data t.symbol = some (((st.raw_data t.symbol).getD []) ++ [t])) ∧
    (∀ (ps : List Json) (s : String),
      (processPayloads AggregatedState.empty ps).raw_data s =
        (if ((ps.filterMap decodeStockPrice).filter (fun t => t.symbol == s)).isEmpty then
          none
        else some ((ps.filterMap decodeStockPrice).filter (fun t => t.symbol == s)))) := by
  constructor
  · intro st t
    rw [record_raw_lookup, if_pos rfl]
  · intro ps s
    rw [processPayloads_eq_processTicks, processTicks_raw_lookup]
    have hempty : AggregatedState.empty.raw_data s = none := rfl
    rw [hempty, applyTicksToRaw_eq]
    simp only [Option.getD_none, List.nil_append]

/-- Witness for C8: the append shape at a concrete state, and the scenario stream
with a malformed payload in the middle stores exactly the two AAPL ticks. -/
theorem raw_history_exact_witness :
    (record AggregatedState.empty aapl1).raw_data aapl1.symbol =
      some (((AggregatedState.empty.raw_data aapl1.symbol).getD []) ++ [aapl1]) ∧
    (processPayloads AggregatedState.empty
        [encodeStockPrice aapl1, Json.str "junk", encodeStockPrice aapl2]).raw_data "AAPL" =
      (if (([encodeStockPrice aapl1, Json.str "junk",
              encodeStockPrice aapl2].filterMap decodeStockPrice).filter
            (fun t => t.symbol == "AAPL")).isEmpty then none
      else some (([encodeStockPrice aapl1, Json.str "junk",
              encodeStockPrice aapl2].filterMap decodeStockPrice).filter
            (fun t => t.symbol == "AAPL"))) :=
  ⟨raw_history_exact.1 AggregatedState.empty aapl1,
   raw_history_exact.2 [encodeStockPrice aapl1, Json.str "junk",
      encodeStockPrice aapl2] "AAPL"⟩

theorem crossInv_empty : CrossInv AggregatedState.empty :=
  fun _ => Or.inl ⟨rfl, rfl⟩

theorem crossInv_record (st : AggregatedState) (t : StockPrice) (h : CrossInv st) :
    CrossInv (record st t) := by
  intro s
  by_cases hs : s = t.symbol
  · subst hs
    right
    rcases h t.symbol with ⟨hr, hst⟩ | ⟨l, a, hr, hst, hne, hc, hsym⟩
    · refine ⟨[t], updateStats zeroStats t.price, ?_, ?_, List.cons_ne_nil _ _, ?_, ?_⟩
      · rw [record_raw_lookup, if_pos rfl, hr]
        rfl
      · rw [record_stats_lookup, if_pos rfl, hst]
        rfl
      · simp [updateStats, zeroStats]
      · intro t' ht'
        rw [List.mem_singleton.mp ht']
    · refine ⟨l ++ [t], updateStats a t.price, ?_, ?_, ?_, ?_, ?_⟩
      · rw [record_raw_lookup, if_pos rfl, hr]
        rfl
      · rw [record_stats_lookup, if_pos rfl, hst]
        rfl
      · simp
      · simp [updateStats, hc]
      · intro t' ht'
        rcases List.mem_append.mp ht' with h1 | h2
        · exact hsym t' h1
        · rw [List.mem_singleton.mp h2]
  · rcases h s with ⟨hr, hst⟩ | ⟨l, a, hr, hst, rest⟩
    · exact Or.inl ⟨by rw [record_raw_lookup, if_neg hs]; exact hr,
        by rw [record_stats_lookup, if_neg hs]; exact hst⟩
    · exact Or.inr ⟨l, a, by rw [record_raw_lookup, if_neg hs]; exact hr,
        by rw [record_stats_lookup, if_neg hs]; exact hst, rest⟩

theorem crossInv_processTicks (ts : List StockPrice) :
    ∀ st : AggregatedState, CrossInv st → CrossInv (processTicks st ts) := by
  induction ts with
  | nil => intro st h; exact h
  | cons t rest ih => intro st h; exact ih _ (crossInv_record st t h)

/-- C9: cross-map invariant — `record` preserves it from any state, and it holds
after processing any tick sequence from the empty state: both maps have the same
key set, and each present symbol has a non-empty history whose length equals the
aggregate's `count`, all of whose ticks carry that symbol. -/
theorem cross_map_invariant :
    (∀ (st : AggregatedState) (t : StockPrice), CrossInv st → CrossInv (record st t)) ∧
    (∀ ts : List StockPrice, CrossInv (processTicks AggregatedState.empty ts)) :=
  ⟨crossInv_record, fun ts => crossInv_processTicks ts _ crossInv_empty⟩

/-- Witness for C9: the invariant holds at the empty state, after one record, and
after the spec's concrete scenario. -/
theorem cross_map_invariant_witness :
    CrossInv (record AggregatedState.empty aapl1) ∧
    CrossInv (processTicks AggregatedState.empty scenarioTicks) :=
  ⟨cross_map_invariant.1 AggregatedState.empty aapl1 crossInv_empty,
   cross_map_invariant.2 scenarioTicks⟩

/-- C3: the aggregate invariant — `average == total / count` when `count > 0` and
`count == 0` implies `total == 0` and `average == 0` — holds for the result of
every update, holds for every aggregate stored in any state reachable from the
empty state, and the first tick for a symbol first creates the zero aggregate and
then applies the update to it. -/
theorem aggregate_invariant :
    (∀ (a : AggregatedStats) (p : ℚ), StatsInv (updateStats a p)) ∧
    (∀ (ts : List StockPrice) (s : String) (a : AggregatedStats),
      (processTicks AggregatedState.empty ts).stats_data s = some a → StatsInv a) ∧
    (∀ (st : AggregatedState) (t : StockPrice), st.stats_data t.symbol = none →
      (record st t).stats_data t.symbol = some (updateStats zeroStats t.price)) := by
  have hupd : ∀ (a : AggregatedStats) (p : ℚ), StatsInv (updateStats a p) := by
    intro a p
    constructor
    · intro _
      rfl
    · intro hc
      exact absurd hc (by simp [updateStats])
  refine ⟨hupd, ?_, ?_⟩
  · intro ts s a h
    rw [processTicks_stats_lookup] at h
    have hempty : AggregatedState.empty.stats_data s = none := rfl
    rw [hempty] at h
    rcases applyTicksToStats_inversion _ _ _ h with ⟨hnone, -⟩ | ⟨b, p, rfl⟩
    · exact absurd hnone (by simp)
    · exact hupd b p
  · intro st t h
    rw [record_stats_lookup, if_pos rfl, h]
    rfl

/-- Witness for C3: the invariant after the first AAPL tick, and zero-initialization
observed at the empty state. -/
theorem aggregate_invariant_witness :
    StatsInv (updateStats zeroStats 100) ∧
    StatsInv (updateStats zeroStats aapl1.price) ∧
    (AggregatedState.empty.stats_data aapl1.symbol = none ∧
      (record AggregatedState.empty aapl1).stats_data aapl1.symbol =
        some (updateStats zeroStats aapl1.price)) :=
  ⟨aggregate_invariant.1 zeroStats 100,
   aggregate_invariant.2.1 [aapl1] "AAPL" (updateStats zeroStats aapl1.price) rfl,
   rfl, aggregate_invariant.2.2 AggregatedState.empty aapl1 rfl⟩

/-- C10: lenient decode — the struct has no `deny_unknown_fields` attribute, so
adding one extra field with a name other than `symbol`/`price`/`timestamp` to the
field list of `encodeStockPrice t` (at the end or at the front) still decodes to
`t`: unknown fields are skipped, not rejected. -/
theorem unknown_fields_ignored (t : StockPrice) (name : String) (v : Json)
    (h1 : name ≠ "symbol") (h2 : name ≠ "price") (h3 : name ≠ "timestamp") :
    decodeStockPrice (Json.obj
      ([("symbol", Json.str t.symbol), ("price", Json.num t.price),
        ("timestamp", Json.str t.timestamp)] ++ [(name, v)])) = some t ∧
    decodeStockPrice (Json.obj
      ((name, v) :: [("symbol", Json.str t.symbol), ("price", Json.num t.price),
        ("timestamp", Json.str t.timestamp)])) = some t := by
  constructor
  · show decodeFields _ = some t
    simp +decide [decodeFields, decodeField, List.foldlM_cons, h1, h2, h3]
  · show decodeFields _ = some t
    simp +decide [decodeFields, decodeField, List.foldlM_cons, h1, h2, h3]

/-- Witness for C10: an extra `volume` field is ignored by the decoder. -/
theorem unknown_fields_ignored_witness :
    ("volume" ≠ "symbol" ∧ "volume" ≠ "price" ∧ "volume" ≠ "timestamp") ∧
    (decodeStockPrice (Json.obj
        ([("symbol", Json.str aapl1.symbol), ("price", Json.num aapl1.price),
          ("timestamp", Json.str aapl1.timestamp)] ++ [("volume", Json.num 5)])) =
        some aapl1 ∧
      decodeStockPrice (Json.obj
        (("volume", Json.num 5) :: [("symbol", Json.str aapl1.symbol),
          ("price", Json.num aapl1.price),
          ("timestamp", Json.str aapl1.timestamp)])) = some aapl1) :=
  ⟨⟨by decide, by decide, by decide⟩,
   unknown_fields_ignored aapl1 "volume" (Json.num 5) (by decide) (by decide) (by decide)⟩

/-- C2, counterexample: one `record` is not atomic with respect to concurrent
reads of the same symbol.  The loop body takes the `raw_data` mutex and the
`stats_data` mutex in two separate critical sections, so the intermediate state
`recordRaw st t` — history appended, aggregate not yet updated — is observable by
a reader that locks between the two sections; in it the AAPL history holds the
tick while the AAPL aggregate does not exist yet, refuting "a reader can never
observe a state in which the tick has been appended to the history but the
matching aggregate update has not been applied". -/
theorem record_atomicity_counterexample :
    recordRaw AggregatedState.empty aapl1 ∈
      observableDuring AggregatedState.empty aapl1 ∧
    consistentAt AggregatedState.empty "AAPL" ∧
    (recordRaw AggregatedState.empty aapl1).raw_data "AAPL" = some [aapl1] ∧
    (recordRaw AggregatedState.empty aapl1).stats_data "AAPL" = none ∧
    ¬ consistentAt (recordRaw AggregatedState.empty aapl1) "AAPL" := by
  refine ⟨List.Mem.tail _ (List.Mem.head _), rfl, rfl, rfl, ?_⟩
  intro h
  simp +decide [consistentAt, recordRaw, AggregatedState.empty, aapl1] at h

/-- C2, amended: each of the two mapping updates is individually atomic and the
observable intermediate state of a `record` is only ever the history-updated,
aggregate-not-yet-updated one (never the reverse, since the raw append comes
first); once the `record` completes, a consistent symbol stays consistent. -/
theorem record_two_phase (st : AggregatedState) (t : StockPrice) (s : String)
    (h : consistentAt st s) :
    (recordRaw st t).stats_data = st.stats_data ∧
    (record st t).raw_data = (recordRaw st t).raw_data ∧
    consistentAt (record st t) s := by
  refine ⟨rfl, rfl, ?_⟩
  unfold consistentAt at h ⊢
  by_cases hs : s = t.symbol
  · subst hs
    rw [record_raw_lookup, record_stats_lookup, if_pos rfl, if_pos rfl]
    have hx : ((st.stats_data t.symbol).getD zeroStats).count =
        (((st.raw_data t.symbol)).getD []).length := by
      rw [getD_zeroStats_count]
      exact h.symm
    simp [updateStats, hx]
  · rw [record_raw_lookup, record_stats_lookup, if_neg hs, if_neg hs]
    exact h

/-- Witness for the amended C2: starting from the consistent empty state, one full
record of the AAPL tick keeps AAPL consistent, and the intermediate state touches
only the raw map. -/
theorem record_two_phase_witness :
    consistentAt AggregatedState.empty "AAPL" ∧
    ((recordRaw AggregatedState.empty aapl1).stats_data =
        AggregatedState.empty.stats_data ∧
      (record AggregatedState.empty aapl1).raw_data =
        (recordRaw AggregatedState.empty aapl1).raw_data ∧
      consistentAt (record AggregatedState.empty aapl1) "AAPL") :=
  ⟨rfl, record_two_phase AggregatedState.empty aapl1 "AAPL" rfl⟩
